import Mathlib

/-!
Verification of the TRAQ_VS record-matching core.

This file gives a shallow embedding, in Lean 4, of the matching code of the
repository:

* `app/common/data_ingestion/data_merger.py` (class `DataMerger`): the
  progressive multi-key matcher;
* `app/common/config/matching_keys_config.py`: the per-regulator priority
  table of key pairs;
* `app/common/key_generation/tsr_key_generator.py` and
  `app/common/key_generation/derivone_key_generator.py`: key normalisation;
* `app/common/scripts/derivone_deduplicator.py`: deduplication keys;
* `app/common/data_ingestion/data_filters.py`: segregation filters.

A pandas DataFrame is modelled as a list of column names plus a list of rows;
a cell is `Option String`, with `none` standing for NaN (pandas `merge` joins
NaN keys to NaN keys, so cell equality models the pandas join predicate).
Python string operations are modelled on the ASCII fragment: `str.upper`
becomes `Char.toUpper` mapped over the characters, which agrees with Python
on ASCII input.  Fallible Python code is modelled with `Except String`.
-/

/-- A cell value; `none` models NaN / missing. -/
abbrev Cell := Option String

/-- A pandas DataFrame: column names and rows (row-major). -/
structure DataFrame where
  cols : List String
  rows : List (List Cell)
deriving Repr, DecidableEq

/-- Well-formedness: each row has exactly one cell per column. -/
def DataFrame.WF (df : DataFrame) : Prop :=
  ∀ r ∈ df.rows, r.length = df.cols.length

instance (df : DataFrame) : Decidable df.WF := by
  unfold DataFrame.WF; infer_instance

/-- Cell lookup by column name (first matching column, as pandas does for
unique labels). -/
def DataFrame.cell (df : DataFrame) (r : List Cell) (c : String) : Cell :=
  match df.cols.findIdx? (fun c2 => c2 == c) with
  | some j => r.getD j none
  | none => none

/-- Number of rows of a frame whose matching_flag column holds `v`. -/
def countFlag (df : DataFrame) (v : String) : Nat :=
  df.rows.countP (fun r => df.cell r "matching_flag" == some v)

/-- First-occurrence deduplication with an accumulator of already seen
values; models `pandas.Series.unique` and `drop_duplicates(keep='first')`. -/
def uniqueFirstAux [DecidableEq α] (seen : List α) : List α → List α
  | [] => []
  | a :: l => if a ∈ seen then uniqueFirstAux seen l else a :: uniqueFirstAux (seen ++ [a]) l

/-- Keep the first occurrence of each value, in order. -/
def uniqueFirst [DecidableEq α] (l : List α) : List α :=
  uniqueFirstAux [] l

/-- `Series.duplicated().any()`: some value occurs twice. -/
def hasDup [DecidableEq α] (l : List α) : Bool :=
  decide (¬ l.Nodup)

/-- The values of one key column, in row order (`df[[key]]` of the code). -/
def keyVals (df : DataFrame) (k : String) : List Cell :=
  df.rows.map (fun r => df.cell r k)

/-- The pandas inner equi-join of two key columns, as a list of
(left position, right position) pairs, in left-major order: for each left
row in order, its matches in right order.  This is the row order pandas
produces for `how='inner'` on these inputs. -/
def innerJoinIdx (ls rs : List Cell) : List (Nat × Nat) :=
  (List.range ls.length).flatMap (fun i =>
    (List.range rs.length).filterMap (fun j =>
      if ls.getD i none = rs.getD j none then some (i, j) else none))

/-- `_process_matches` lines 64..71: the merge result, after the
conditional `drop_duplicates(subset=[index_x, index_y], keep='first')`
that runs when a left or right position occurs more than once. -/
def mergeResultPairs (tl tr : DataFrame) (lk rk : String) : List (Nat × Nat) :=
  let mr0 := innerJoinIdx (keyVals tl lk) (keyVals tr rk)
  if hasDup (mr0.map Prod.fst) || hasDup (mr0.map Prod.snd) then
    uniqueFirst mr0
  else
    mr0

/-- Positions (into a length-`n` range index) not yet matched, in order;
models `~df.index.isin(matched_indices)`. -/
def unmatchedPos (n : Nat) (matched : List Nat) : List Nat :=
  (List.range n).filter (fun i => decide (i ∉ matched))

/-- Row selection by positions: `df[mask]` followed by
`reset_index(drop=True)`. -/
def subFrame (df : DataFrame) (pos : List Nat) : DataFrame :=
  ⟨df.cols, pos.map (fun i => df.rows.getD i [])⟩

/-- The loop state of `merge_data`: matched original positions on each side
(`pd.Index.union` keeps a set of labels; we keep a list and use it only
through membership) and the accumulated matched frames. -/
structure MergerState where
  leftMatched : List Nat
  rightMatched : List Nat
  matchedFrames : List DataFrame
deriving Repr, DecidableEq

/-- One iteration of the `merge_data` loop (lines 108..141) for one key
pair.  The early `break` of line 120..122 is modelled by a per-round guard:
once a side is exhausted it stays exhausted, so guarding every later round
is extensionally the same as breaking. -/
def mergeRound (dfL dfR : DataFrame) (st : MergerState) (keys : String × String) : MergerState :=
  let lpos := unmatchedPos dfL.rows.length st.leftMatched
  let rpos := unmatchedPos dfR.rows.length st.rightMatched
  if lpos = [] ∨ rpos = [] then st
  else
    let tl := subFrame dfL lpos
    let tr := subFrame dfR rpos
    let mr := mergeResultPairs tl tr keys.1 keys.2
    if mr = [] then st
    else
      { leftMatched := st.leftMatched ++ (uniqueFirst (mr.map Prod.fst)).map (fun i => lpos.getD i 0)
        rightMatched := st.rightMatched ++ (uniqueFirst (mr.map Prod.snd)).map (fun j => rpos.getD j 0)
        matchedFrames := st.matchedFrames ++
          [⟨tl.cols ++ tr.cols ++ ["matching_flag"],
            mr.map (fun p => tl.rows.getD p.1 [] ++ tr.rows.getD p.2 [] ++ [some "matched"])⟩] }

/-- The whole matching loop over the priority list. -/
def runRounds (dfL dfR : DataFrame) (ks : List (String × String)) : MergerState :=
  ks.foldl (mergeRound dfL dfR) ⟨[], [], []⟩

/-- The loop state just before round `i` (0-based). -/
def stateBefore (dfL dfR : DataFrame) (ks : List (String × String)) (i : Nat) : MergerState :=
  (ks.take i).foldl (mergeRound dfL dfR) ⟨[], [], []⟩

/-- The candidate pairings of one round from a given loop state: the raw
equi-join output of the round, mapped back to original positions (before
any duplicate dropping). -/
def roundCandidatesOf (dfL dfR : DataFrame) (st : MergerState) (keys : String × String) :
    List (Nat × Nat) :=
  let lpos := unmatchedPos dfL.rows.length st.leftMatched
  let rpos := unmatchedPos dfR.rows.length st.rightMatched
  if lpos = [] ∨ rpos = [] then []
  else
    (innerJoinIdx (keyVals (subFrame dfL lpos) keys.1)
        (keyVals (subFrame dfR rpos) keys.2)).map
      (fun p => (lpos.getD p.1 0, rpos.getD p.2 0))

/-- The pairs that become matched rows in one round from a given loop
state, at original positions. -/
def roundPairsOf (dfL dfR : DataFrame) (st : MergerState) (keys : String × String) :
    List (Nat × Nat) :=
  let lpos := unmatchedPos dfL.rows.length st.leftMatched
  let rpos := unmatchedPos dfR.rows.length st.rightMatched
  if lpos = [] ∨ rpos = [] then []
  else
    (mergeResultPairs (subFrame dfL lpos) (subFrame dfR rpos) keys.1 keys.2).map
      (fun p => (lpos.getD p.1 0, rpos.getD p.2 0))

/-- The candidate pairings of round `i` (0-based) of the matching loop. -/
def roundCandidatePairs (dfL dfR : DataFrame) (ks : List (String × String)) (i : Nat) :
    List (Nat × Nat) :=
  roundCandidatesOf dfL dfR (stateBefore dfL dfR ks i) (ks.getD i ("", ""))

/-- The pairs that become matched rows in round `i`, at original positions. -/
def roundMatchedPairs (dfL dfR : DataFrame) (ks : List (String × String)) (i : Nat) :
    List (Nat × Nat) :=
  roundPairsOf dfL dfR (stateBefore dfL dfR ks i) (ks.getD i ("", ""))

/-- Per-regulator matching keys: the `default` list and the per-asset-class
overrides, from `matching_keys_config.py`. -/
structure RegKeys where
  dflt : List (String × String)
  perAsset : List (String × List (String × String))
deriving Repr, DecidableEq

/-- The `matching_keys` table of `matching_keys_config.py`. -/
def matchingKeysTable : List (String × RegKeys) :=
  [("JFSA",
    { dflt := [("matching_key_uti", "matching_key_huti"),
               ("matching_key_uti", "matching_key_uti"),
               ("matching_key_uti", "matching_key_usi"),
               ("matching_key_uti", "matching_key_usi_value"),
               ("matching_key_uti", "matching_key_uti_value")]
      perAsset := [("IR",
        [("matching_key_uti", "matching_key_huti"),
         ("matching_key_uti", "matching_key_uti"),
         ("matching_key_uti", "matching_key_usi"),
         ("matching_key_uti", "matching_key_usi_value"),
         ("matching_key_uti", "matching_key_uti_value"),
         ("matching_key_straddle_uti", "matching_key_huti"),
         ("matching_key_straddle_uti", "matching_key_uti"),
         ("matching_key_straddle_uti", "matching_key_usi"),
         ("matching_key_straddle_uti", "matching_key_usi_value"),
         ("matching_key_straddle_uti", "matching_key_uti_value")])] }),
   ("ASIC",
    { dflt := [("matching_key_uti", "matching_key_huti"),
               ("matching_key_uti", "matching_key_uti"),
               ("matching_key_uti", "matching_key_usi")]
      perAsset := [] }),
   ("MAS",
    { dflt := [("matching_key_uti", "matching_key_huti"),
               ("matching_key_uti", "matching_key_uti"),
               ("matching_key_uti", "matching_key_usi")]
      perAsset := [] }),
   ("EMIR_REFIT",
    { dflt := [("matching_key_uti", "matching_key_huti"),
               ("matching_key_uti", "matching_key_uti"),
               ("matching_key_uti", "matching_key_usi")]
      perAsset := [("IR",
        [("matching_key_uti", "matching_key_huti"),
         ("matching_key_uti", "matching_key_uti"),
         ("matching_key_uti", "matching_key_usi"),
         ("matching_key_uti", "matching_key_huti_dir"),
         ("matching_key_uti", "matching_key_uti_dir"),
         ("matching_key_uti", "matching_key_usi_dir")])] })]

/-- `get_matching_keys_for_regulator`: `matching_keys.get(regulator, {})`,
then the asset-class entry when present, else `get('default', [])`. -/
def getMatchingKeysForRegulator (regulator : String) (assetClass : Option String) :
    List (String × String) :=
  match matchingKeysTable.lookup regulator with
  | none => []
  | some rk =>
    match assetClass with
    | some a =>
      match rk.perAsset.lookup a with
      | some l => l
      | none => rk.dflt
    | none => rk.dflt

/-- Map a column-name namespace over column names
(`[f"{prefix[x]}{col}" for col in columns]`). -/
def withPfx (p : String) (cs : List String) : List String :=
  cs.map (fun c => p ++ c)

/-- The fields of a `DataMerger` object after `__init__`: the two internal
copies with namespaced column names, the saved original column names, and
the namespaced key-pair list. -/
structure DataMerger where
  dfLeft : DataFrame
  dfRight : DataFrame
  leftPfx : String
  rightPfx : String
  leftColumns : List String
  rightColumns : List String
  onKeysList : List (String × String)
deriving Repr, DecidableEq

/-- `DataMerger.__init__`: copy both frames, namespace their column names,
and load the namespaced matching keys for the regulator. -/
def mkDataMerger (dfL dfR : DataFrame) (regulator : String) (assetClass : Option String)
    (lp rp : String) : DataMerger :=
  { dfLeft := ⟨withPfx lp dfL.cols, dfL.rows⟩
    dfRight := ⟨withPfx rp dfR.cols, dfR.rows⟩
    leftPfx := lp
    rightPfx := rp
    leftColumns := dfL.cols
    rightColumns := dfR.cols
    onKeysList := (getMatchingKeysForRegulator regulator assetClass).map
      (fun k => (lp ++ k.1, rp ++ k.2)) }

/-- Align one row of a member frame to the column list of the concatenated
frame: cells are looked up by column name, absent columns become NaN.  This
is how `pd.concat(..., ignore_index=True)` fills rows. -/
def alignRow (allCols frameCols : List String) (r : List Cell) : List Cell :=
  allCols.map (fun c =>
    match frameCols.findIdx? (fun c2 => c2 == c) with
    | some j => r.getD j none
    | none => none)

/-- The column list of `pd.concat`: columns in order of first appearance. -/
def unionCols (frames : List DataFrame) : List String :=
  frames.foldl (fun acc f => acc ++ f.cols.filter (fun c => decide (c ∉ acc))) []

/-- `pd.concat(result_dfs, ignore_index=True)` over frames with
individually unique column names. -/
def concatAlign (frames : List DataFrame) : DataFrame :=
  let allCols := unionCols frames
  ⟨allCols, frames.flatMap (fun f => f.rows.map (alignRow allCols f.cols))⟩

/-- The left-only frame of lines 152..164: the unmatched left rows, NaN in
every namespaced right column, and the left_only flag. -/
def leftOnlyFrame (dm : DataMerger) (st : MergerState) : DataFrame :=
  let lpos := unmatchedPos dm.dfLeft.rows.length st.leftMatched
  ⟨dm.dfLeft.cols ++ withPfx dm.rightPfx dm.rightColumns ++ ["matching_flag"],
   lpos.map (fun i =>
     dm.dfLeft.rows.getD i [] ++ dm.rightColumns.map (fun _ => (none : Cell))
       ++ [some "left_only"])⟩

/-- The right-only frame of lines 176..182: the unmatched right rows plus
the right_only flag (no left columns; `pd.concat` fills them with NaN). -/
def rightOnlyFrame (dm : DataMerger) (st : MergerState) : DataFrame :=
  let rpos := unmatchedPos dm.dfRight.rows.length st.rightMatched
  ⟨dm.dfRight.cols ++ ["matching_flag"],
   rpos.map (fun j => dm.dfRight.rows.getD j [] ++ [some "right_only"])⟩

/-- The early-return condition of lines 151..173: a `left`-or-`full` run
with no unmatched left rows and no matched frames returns an empty frame
with the namespaced schema, skipping the right-only branch and the restore
of original column names. -/
def leftEarlyReturn (dm : DataMerger) (returnType : String) (st : MergerState) : Prop :=
  (returnType = "left" ∨ returnType = "full") ∧
    unmatchedPos dm.dfLeft.rows.length st.leftMatched = [] ∧
    st.matchedFrames = []

instance (dm : DataMerger) (rt : String) (st : MergerState) :
    Decidable (leftEarlyReturn dm rt st) := by
  unfold leftEarlyReturn; infer_instance

/-- `DataMerger.merge_data`. -/
def mergeData (dm : DataMerger) (returnType : String) : Except String DataFrame :=
  if ¬ (returnType = "left" ∨ returnType = "right" ∨ returnType = "inner"
      ∨ returnType = "full") then
    .error ("Invalid return_type " ++ returnType)
  else
    let st := runRounds dm.dfLeft dm.dfRight dm.onKeysList
    if leftEarlyReturn dm returnType st then
      .ok ⟨withPfx dm.leftPfx dm.leftColumns ++ withPfx dm.rightPfx dm.rightColumns
            ++ ["matching_flag"], []⟩
    else
      let res1 := st.matchedFrames
      let res2 :=
        if (returnType = "left" ∨ returnType = "full") ∧
            unmatchedPos dm.dfLeft.rows.length st.leftMatched ≠ [] then
          res1 ++ [leftOnlyFrame dm st]
        else res1
      let res3 :=
        if (returnType = "right" ∨ returnType = "full") ∧
            unmatchedPos dm.dfRight.rows.length st.rightMatched ≠ [] then
          res2 ++ [rightOnlyFrame dm st]
        else res2
      if res3 = [] then
        .ok ⟨dm.leftColumns ++ dm.rightColumns ++ ["matching_flag"], []⟩
      else
        .ok (concatAlign res3)

/-- Python `str.upper` on the ASCII fragment: `Char.toUpper` maps basic
latin lowercase to uppercase and fixes everything else. -/
def pyUpper (s : String) : String :=
  ⟨s.data.map Char.toUpper⟩

/-- Python `str.strip`: drop leading and trailing whitespace. -/
def pyStripWs (s : String) : String :=
  ⟨((s.data.dropWhile Char.isWhitespace).reverse.dropWhile Char.isWhitespace).reverse⟩

/-- Keep characters of the class `[a-zA-Z0-9]` (regex `[^a-zA-Z0-9]` with
`re.sub` removes its complement). -/
def keepAlnumCI (c : Char) : Bool :=
  decide ((65 ≤ c.toNat ∧ c.toNat ≤ 90) ∨ (97 ≤ c.toNat ∧ c.toNat ≤ 122)
    ∨ (48 ≤ c.toNat ∧ c.toNat ≤ 57))

/-- Keep characters of the class `[A-Z0-9]` (the DerivOne pattern
`[^A-Z0-9]`). -/
def keepAZ09 (c : Char) : Bool :=
  decide ((65 ≤ c.toNat ∧ c.toNat ≤ 90) ∨ (48 ≤ c.toNat ∧ c.toNat ≤ 57))

/-- `re.compile(r'[^a-zA-Z0-9]').sub('', s)`. -/
def subNonAlnum (s : String) : String :=
  ⟨s.data.filter keepAlnumCI⟩

/-- `str.replace(r'[^A-Z0-9]', '', regex=True)`. -/
def subNonUpperAlnum (s : String) : String :=
  ⟨s.data.filter keepAZ09⟩

/-- The final normalisation applied by the JFSA TSR key generator
(lines 110 and 108): `pattern.sub('', x).upper()`. -/
def jfsaNormalize (s : String) : String :=
  pyUpper (subNonAlnum s)

/-- `JFSATSRKeyGenerator.generate_keys` for non-equity asset classes:
`matching_key_uti` is the concatenation of counterparty and UTI, then
normalised. -/
def jfsaMatchingKeyUti (cpty uti : String) : String :=
  jfsaNormalize (cpty ++ uti)

/-- `DerivOneKeyGenerator.clean_columns` on one cell:
`fillna('').astype(str).str.strip().str.upper()`. -/
def d1Clean (v : Cell) : String :=
  pyUpper (pyStripWs (v.getD ""))

/-- The final normalisation of `DerivOneKeyGenerator.generate_keys`
(lines 163..166): remove `[^A-Z0-9]`, then uppercase. -/
def d1Normalize (s : String) : String :=
  pyUpper (subNonUpperAlnum s)

/-- `matching_key_uti` of the DerivOne generator for the generic asset
classes (line 144): `party1_lei.str.cat(uti_prefix).str.cat(uti_value)`
over the cleaned columns, then the final normalisation. -/
def derivOneMatchingKeyUti (lei utiP utiV : Cell) : String :=
  d1Normalize (d1Clean lei ++ d1Clean utiP ++ d1Clean utiV)

/-- The normalisation the spec describes, in the order it states it:
uppercase the value, then remove every character outside `[A-Za-z0-9]`. -/
def specNormalize (s : String) : String :=
  ⟨(s.data.map Char.toUpper).filter keepAlnumCI⟩

/-- Decimal representation of a natural number, as an f-string renders it
(model of `f"...{i}"`): most significant digit first. -/
def decRepr (n : Nat) : String :=
  if n = 0 then "0" else ⟨(Nat.digits 10 n).reverse.map Nat.digitChar⟩

/-- The placeholder of `TSRKeyGenerator.clean_columns` (lines 46..49):
marker, column name, and one drawn random integer. -/
def tsrPlaceholder (col : String) (r : Nat) : String :=
  "missing_place_holder_" ++ col ++ "_" ++ decRepr r

/-- `TSRKeyGenerator.clean_columns` on one column.  `rands` is the vector
drawn by `np.random.randint(0, len(self.data), size=mask.sum())`, consumed
by the blank rows in row order; a run of the Python code corresponds to a
`rands` whose entries are below the row count. -/
def tsrCleanGo (col : String) : List Cell → List Nat → List String
  | [], _ => []
  | v :: vs, rs =>
    let v2 := pyUpper (pyStripWs (v.getD ""))
    if v2 = "" then tsrPlaceholder col (rs.headD 0) :: tsrCleanGo col vs rs.tail
    else v2 :: tsrCleanGo col vs rs

/-- `clean_columns` for a single column, as a function of the random draw. -/
def tsrCleanColumn (col : String) (vals : List Cell) (rands : List Nat) : List String :=
  tsrCleanGo col vals rands

/-- The placeholder of `DerivOneDeduplicator.create_deduplication_key`
(lines 66 and 103): `f'missing_placeholder{i}'`. -/
def missingPlaceholder (n : Nat) : String :=
  "missing_placeholder" ++ decRepr n

/-- Placeholder assignment inside one chunk: the `k`-th blank value of the
chunk (0-based) receives suffix `start + 1 + k`, exactly
`range(start_idx + 1, start_idx + len(missing_indices) + 1)`. -/
def fillChunkGo (start : Nat) : List String → Nat → List String
  | [], _ => []
  | v :: vs, k =>
    if v = "" then missingPlaceholder (start + 1 + k) :: fillChunkGo start vs (k + 1)
    else v :: fillChunkGo start vs k

/-- Placeholder assignment for the chunk beginning at row `start`. -/
def fillChunk (start : Nat) (vals : List String) : List String :=
  fillChunkGo start vals 0

/-- The chunked loop of `create_deduplication_key`
(`for start_idx in range(0, total_rows, chunk_size)` with
`chunk_size = 100000`), applied to the per-row combined keys. -/
def chunkFill (vals : List String) (start : Nat) : List String :=
  if h : vals = [] then []
  else fillChunk start (vals.take 100000) ++ chunkFill (vals.drop 100000) (start + 100000)
termination_by vals.length
decreasing_by
  simp only [List.length_drop]
  have : vals.length ≠ 0 := fun hl => h (List.eq_nil_of_length_eq_zero hl)
  omega

/-- `create_deduplication_key`: combined keys with blank rows replaced by
batch placeholders. -/
def createDedupKeys (vals : List String) : List String :=
  chunkFill vals 0

/-- `astype('string').fillna('').str.strip()` on one cell. -/
def d1StripStr (v : Cell) : String :=
  pyStripWs (v.getD "")

/-- The per-row combined deduplication key of the non-EQD branch
(lines 72..97): HUTI when populated and not the NOHUTIPROVIDED sentinel,
else USI when populated, else UTI, each with the LEI in front. -/
def dedupCombinedKey (lei hutiP hutiV usiP usiV utiP utiV : Cell) : String :=
  let hp := d1StripStr hutiP
  let hv := d1StripStr hutiV
  let hutiIsEmpty := hv = "" ∨ pyUpper hv = "NOHUTIPROVIDED" ∨ pyUpper hp = "NOHUTIPROVIDED"
  if ¬ hutiIsEmpty then d1StripStr lei ++ hp ++ hv
  else if d1StripStr usiV ≠ "" then d1StripStr lei ++ d1StripStr usiP ++ d1StripStr usiV
  else d1StripStr lei ++ d1StripStr utiP ++ d1StripStr utiV

/-- `Series.isin(values)` on one cell (NaN is in no list). -/
def isinCell (c : Cell) (vs : List String) : Bool :=
  vs.any (fun v => c == some v)

/-- `notna() & (str.strip() != '')` on one cell. -/
def notnaNonblank (c : Cell) : Bool :=
  match c with
  | some s => decide (pyStripWs s ≠ "")
  | none => false

/-- The EQD predicate of `segregate_eq_trades`, per regime
(lines 110..138). -/
def eqdCondition (regime : String) (df : DataFrame) (r : List Cell) : Bool :=
  if regime = "JFSA" then
    df.cell r "Asset Class" == some "EQUI"
      && isinCell (df.cell r "Contract type") ["OPTN", "OTHR"]
  else if regime = "ASIC" then
    isinCell (df.cell r "Contract Type") ["OTHR", "OPTN"]
      || (df.cell r "Contract Type" == some "SWAP"
          && notnaNonblank (df.cell r "Direction 1"))
  else if regime = "MAS" then
    isinCell (df.cell r "Contract Type") ["OTHR", "OPTN"]
      || (df.cell r "Contract Type" == some "SWAP"
          && notnaNonblank (df.cell r "Direction"))
  else if regime = "EMIR_REFIT" then
    isinCell (df.cell r "Contract type") ["OPTN", "OTHR"]
      || isinCell (df.cell r "Product classification")
          ["SEMVXC", "SESLXC", "SEILXC", "SESVXC", "SEMLXC", "SEMDXC",
           "SESDXC", "SEBVXC", "SEIDXC", "SEBLXC", "SEIVXC"]
  else false

/-- The EQS predicate of `segregate_eq_trades`: explicit for JFSA, the
complement of EQD for the other regimes. -/
def eqsCondition (regime : String) (df : DataFrame) (r : List Cell) : Bool :=
  if regime = "JFSA" then
    df.cell r "Asset Class" == some "EQUI"
      && isinCell (df.cell r "Contract type") ["SWAP", "FORW"]
  else !(eqdCondition regime df r)

/-- Set (or append) a column with the given per-row values. -/
def DataFrame.setCol (df : DataFrame) (name : String) (vals : List Cell) : DataFrame :=
  match df.cols.findIdx? (fun c => c == name) with
  | some j => ⟨df.cols, (df.rows.zip vals).map (fun rv => rv.1.set j rv.2)⟩
  | none => ⟨df.cols ++ [name], (df.rows.zip vals).map (fun rv => rv.1 ++ [rv.2])⟩

/-- The per-row value of `EQ_Secondary_Asset_Class` after lines 142..144:
TBD everywhere, overwritten by EQS, overwritten by EQD (the later
assignment wins where both predicates hold). -/
def eqFlagValue (regime : String) (df : DataFrame) (r : List Cell) : String :=
  if eqdCondition regime df r then "EQD"
  else if eqsCondition regime df r then "EQS"
  else "TBD"

/-- `TSRFilters.segregate_eq_trades`: tag every row, then drop the other
subclass (EQD rows for an EQS run, EQS rows otherwise); TBD rows are kept
either way. -/
def segregateEqTrades (regime assetClass : String) (df : DataFrame) :
    Except String DataFrame :=
  if regime = "JFSA" ∨ regime = "ASIC" ∨ regime = "MAS" ∨ regime = "EMIR_REFIT" then
    let df2 := df.setCol "EQ_Secondary_Asset_Class"
      (df.rows.map (fun r => (some (eqFlagValue regime df r) : Cell)))
    if assetClass = "EQS" then
      .ok ⟨df2.cols, df2.rows.filter
        (fun r => !(df2.cell r "EQ_Secondary_Asset_Class" == some "EQD"))⟩
    else
      .ok ⟨df2.cols, df2.rows.filter
        (fun r => !(df2.cell r "EQ_Secondary_Asset_Class" == some "EQS"))⟩
  else
    .error ("Segregation logic not defined for regime: " ++ regime)

/-- The FXC predicate of `segregate_fx_trades` (lines 164..175). -/
def fxcCondition (regime : String) (df : DataFrame) (r : List Cell) : Bool :=
  if regime = "JFSA" then
    df.cell r "Asset Class" == some "CURR"
      && isinCell (df.cell r "Contract type") ["FORW"]
  else if regime = "ASIC" ∨ regime = "MAS" then
    df.cell r "Asset Class" == some "CURR"
      && isinCell (df.cell r "Contract Type") ["FORW", "SWAP"]
  else if regime = "EMIR_REFIT" then
    !(df.cell r "Product Classification" == none)
      && df.cell r "Contract Type" == some "FORW"
  else false

/-- The FXO predicate of `segregate_fx_trades`. -/
def fxoCondition (regime : String) (df : DataFrame) (r : List Cell) : Bool :=
  if regime = "JFSA" then
    df.cell r "Asset Class" == some "CURR"
      && isinCell (df.cell r "Contract type") ["OPTN", "OTHR"]
  else if regime = "ASIC" ∨ regime = "MAS" then
    df.cell r "Asset Class" == some "CURR"
      && isinCell (df.cell r "Contract Type") ["OPTN", "OTHR"]
  else if regime = "EMIR_REFIT" then
    !(df.cell r "Product Classification" == none)
      && isinCell (df.cell r "Contract Type") ["OPTN", "OTHR"]
  else false

/-- `TSRFilters.segregate_fx_trades`.  After computing the two condition
vectors, line 179 `self.data.loc['FX_Secondary_Asset_Class'] = 'TBD'`
enlarges the frame with a new ROW labelled by that string (it is missing
the column selector `:,`), and line 180
`self.data[fxc_condition, 'FX_Secondary_Asset_Class'] = 'FXC'` indexes the
frame with the tuple (boolean Series, string), an unhashable column key:
pandas raises TypeError.  The method therefore fails on every supported
regime. -/
def segregateFxTrades (regime assetClass : String) (df : DataFrame) :
    Except String DataFrame :=
  if regime = "JFSA" ∨ regime = "ASIC" ∨ regime = "MAS" ∨ regime = "EMIR_REFIT" then
    let fxc := df.rows.map (fun r => fxcCondition regime df r)
    let fxo := df.rows.map (fun r => fxoCondition regime df r)
    let _ := fxc
    let _ := fxo
    let _ := assetClass
    .error "TypeError: unhashable type: Series"
  else
    .error ("Segregation logic not defined for regime: " ++ regime)

/-- A store of Python DataFrame objects, to track which objects the
`DataMerger` mutates.  Indices are object references. -/
structure PyStore where
  frames : List DataFrame

/-- Dereference (out-of-range reads return an empty frame). -/
def PyStore.read (s : PyStore) (i : Nat) : DataFrame :=
  s.frames.getD i ⟨[], []⟩

/-- In-place update of the object at reference `i`. -/
def PyStore.write (s : PyStore) (i : Nat) (df : DataFrame) : PyStore :=
  ⟨s.frames.set i df⟩

/-- `df.copy()`: allocate a fresh object with the same value. -/
def PyStore.alloc (s : PyStore) (df : DataFrame) : PyStore × Nat :=
  (⟨s.frames ++ [df]⟩, s.frames.length)

/-- A full `DataMerger` session against the store: `__init__` copies the
two caller frames (lines 23..24), renames the columns of the copies only
(lines 34..35), `merge_data` runs on the copies, and lines 186..187 restore
the original column names on the copies (skipped by the early return of
line 169 and by the `ValueError` of line 97).  The caller frames at `iL`
and `iR` are never written. -/
def dataMergerSession (s0 : PyStore) (iL iR : Nat) (regulator : String)
    (assetClass : Option String) (lp rp returnType : String) :
    PyStore × Except String DataFrame :=
  let origL := s0.read iL
  let origR := s0.read iR
  let a1 := s0.alloc origL
  let a2 := a1.1.alloc origR
  let iLc := a1.2
  let iRc := a2.2
  let s2 := a2.1
  let s3 := s2.write iLc ⟨withPfx lp origL.cols, (s2.read iLc).rows⟩
  let s4 := s3.write iRc ⟨withPfx rp origR.cols, (s3.read iRc).rows⟩
  let dm : DataMerger := ⟨s4.read iLc, s4.read iRc, lp, rp, origL.cols, origR.cols,
    (getMatchingKeysForRegulator regulator assetClass).map (fun k => (lp ++ k.1, rp ++ k.2))⟩
  let res := mergeData dm returnType
  if ¬ (returnType = "left" ∨ returnType = "right" ∨ returnType = "inner"
      ∨ returnType = "full") then
    (s4, res)
  else if leftEarlyReturn dm returnType (runRounds dm.dfLeft dm.dfRight dm.onKeysList) then
    (s4, res)
  else
    let s5 := s4.write iLc ⟨origL.cols, (s4.read iLc).rows⟩
    let s6 := s5.write iRc ⟨origR.cols, (s5.read iRc).rows⟩
    (s6, res)

/-- Fan-out example, left side: two records with the same derived key. -/
def exFanL : DataFrame :=
  ⟨["matching_key_uti"], [[some "K1"], [some "K1"]]⟩

/-- Fan-out example, right side: one record whose harmonized key equals the
key of both left records. -/
def exFanR : DataFrame :=
  ⟨["matching_key_huti", "matching_key_uti", "matching_key_usi",
    "matching_key_usi_value", "matching_key_uti_value"],
   [[some "K1", some "U1", some "S1", some "SV1", some "UV1"]]⟩

/-- The merger for the fan-out example, under the JFSA priority list. -/
def exFanDM : DataMerger :=
  mkDataMerger exFanL exFanR "JFSA" none "l_" "r_"

/-- The priority-list example of the spec: key pair A first, then B. -/
def exPrioKeys : List (String × String) :=
  [("A", "A"), ("B", "B")]

/-- Priority example, left: row 0 matches on A; row 1 fails A but its B key
equals the B key of the already matched right row 0. -/
def exPrioL : DataFrame :=
  ⟨["A", "B"], [[some "a1", some "b1"], [some "x", some "b2"]]⟩

/-- Priority example, right: row 0 matches on A in round 0 and also carries
the B key b2; row 1 only carries the B key b2. -/
def exPrioR : DataFrame :=
  ⟨["A", "B"], [[some "a1", some "b2"], [some "y", some "b2"]]⟩

/-- Empty-left example, left side: no rows. -/
def exEmptyL : DataFrame :=
  ⟨["u"], []⟩

/-- Empty-left example, right side: one row. -/
def exEmptyR : DataFrame :=
  ⟨["u"], [[some "V"]]⟩

/-- Unknown-regulator example, left side: empty. -/
def exNoRegL : DataFrame :=
  ⟨["matching_key_uti"], []⟩

/-- Unknown-regulator example, right side: one record. -/
def exNoRegR : DataFrame :=
  ⟨["matching_key_uti"], [[some "V"]]⟩

/-- Unknown-regulator example with a non-empty left side. -/
def exNoRegL2 : DataFrame :=
  ⟨["a"], [[some "x"]]⟩

/-- Unknown-regulator example, right side with two records. -/
def exNoRegR2 : DataFrame :=
  ⟨["b"], [[some "y"], [some "z"]]⟩

/-- A one-row JFSA FX frame: a CURR forward, which the FXC predicate
matches. -/
def exFxDf : DataFrame :=
  ⟨["Asset Class", "Contract type"], [[some "CURR", some "FORW"]]⟩

/-- A caller store holding the two fan-out frames. -/
def exStore : PyStore :=
  ⟨[exFanL, exFanR]⟩

theorem mem_uniqueFirstAux [DecidableEq α] (seen : List α) (l : List α) (x : α) :
    x ∈ uniqueFirstAux seen l ↔ x ∈ l ∧ x ∉ seen := by
  induction l generalizing seen with
  | nil => simp [uniqueFirstAux]
  | cons a l ih =>
    by_cases h : a ∈ seen
    · simp only [uniqueFirstAux, if_pos h, ih, List.mem_cons]
      constructor
      · rintro ⟨hx, hns⟩; exact ⟨Or.inr hx, hns⟩
      · rintro ⟨hx | hx, hns⟩
        · exact absurd (hx ▸ h) hns
        · exact ⟨hx, hns⟩
    · simp only [uniqueFirstAux, if_neg h, List.mem_cons, ih, List.mem_append]
      by_cases hxa : x = a
      · subst hxa; tauto
      · tauto

theorem mem_uniqueFirst [DecidableEq α] (l : List α) (x : α) :
    x ∈ uniqueFirst l ↔ x ∈ l := by
  simp [uniqueFirst, mem_uniqueFirstAux]

theorem mem_unmatchedPos (n : Nat) (m : List Nat) (x : Nat) :
    x ∈ unmatchedPos n m ↔ x < n ∧ x ∉ m := by
  simp [unmatchedPos, List.mem_filter, List.mem_range]

theorem innerJoinIdx_mem (ls rs : List Cell) (p : Nat × Nat)
    (hp : p ∈ innerJoinIdx ls rs) : p.1 < ls.length ∧ p.2 < rs.length := by
  simp only [innerJoinIdx, List.mem_flatMap, List.mem_filterMap, List.mem_range] at hp
  obtain ⟨i, hi, j, hj, heq⟩ := hp
  by_cases hc : ls.getD i none = rs.getD j none
  · rw [if_pos hc] at heq
    cases heq
    exact ⟨hi, hj⟩
  · rw [if_neg hc] at heq
    cases heq

theorem mergeResultPairs_subset (tl tr : DataFrame) (lk rk : String) (p : Nat × Nat)
    (hp : p ∈ mergeResultPairs tl tr lk rk) :
    p ∈ innerJoinIdx (keyVals tl lk) (keyVals tr rk) := by
  simp only [mergeResultPairs] at hp
  split at hp
  · exact (mem_uniqueFirst _ _).mp hp
  · exact hp

theorem keyVals_length (df : DataFrame) (k : String) :
    (keyVals df k).length = df.rows.length := by
  simp [keyVals]

theorem subFrame_rows_length (df : DataFrame) (pos : List Nat) :
    (subFrame df pos).rows.length = pos.length := by
  simp [subFrame]

theorem getD_mem_of_lt (l : List Nat) (i : Nat) (h : i < l.length) : l.getD i 0 ∈ l := by
  rw [List.getD_eq_getElem l 0 h]
  exact List.getElem_mem h

theorem mergeRound_leftMatched_mono (dfL dfR : DataFrame) (st : MergerState)
    (keys : String × String) :
    st.leftMatched ⊆ (mergeRound dfL dfR st keys).leftMatched := by
  simp only [mergeRound]
  split
  · exact fun x hx => hx
  · split
    · exact fun x hx => hx
    · exact List.subset_append_left _ _

theorem mergeRound_rightMatched_mono (dfL dfR : DataFrame) (st : MergerState)
    (keys : String × String) :
    st.rightMatched ⊆ (mergeRound dfL dfR st keys).rightMatched := by
  simp only [mergeRound]
  split
  · exact fun x hx => hx
  · split
    · exact fun x hx => hx
    · exact List.subset_append_left _ _

theorem stateBefore_succ (dfL dfR : DataFrame) (ks : List (String × String)) (i : Nat)
    (h : i < ks.length) :
    stateBefore dfL dfR ks (i + 1)
      = mergeRound dfL dfR (stateBefore dfL dfR ks i) (ks.getD i ("", "")) := by
  unfold stateBefore
  rw [List.take_succ, List.getElem?_eq_getElem h, List.foldl_append,
    List.getD_eq_getElem ks ("", "") h]
  rfl

theorem stateBefore_stable (dfL dfR : DataFrame) (ks : List (String × String)) (i : Nat)
    (h : ks.length ≤ i) :
    stateBefore dfL dfR ks (i + 1) = stateBefore dfL dfR ks i := by
  unfold stateBefore
  rw [List.take_of_length_le h, List.take_of_length_le (Nat.le_succ_of_le h)]

theorem stateBefore_leftMatched_mono (dfL dfR : DataFrame) (ks : List (String × String))
    (i j : Nat) (h : i ≤ j) :
    (stateBefore dfL dfR ks i).leftMatched ⊆ (stateBefore dfL dfR ks j).leftMatched := by
  induction j with
  | zero =>
    cases Nat.le_zero.mp h
    exact fun x hx => hx
  | succ j ih =>
    rcases Nat.lt_or_ge i (j + 1) with hlt | hge
    · have hsub := ih (Nat.lt_succ_iff.mp hlt)
      rcases Nat.lt_or_ge j ks.length with hj | hj
      · rw [stateBefore_succ dfL dfR ks j hj]
        exact fun x hx => mergeRound_leftMatched_mono dfL dfR _ _ (hsub hx)
      · rw [stateBefore_stable dfL dfR ks j hj]
        exact hsub
    · cases Nat.le_antisymm h hge
      exact fun x hx => hx

theorem stateBefore_rightMatched_mono (dfL dfR : DataFrame) (ks : List (String × String))
    (i j : Nat) (h : i ≤ j) :
    (stateBefore dfL dfR ks i).rightMatched ⊆ (stateBefore dfL dfR ks j).rightMatched := by
  induction j with
  | zero =>
    cases Nat.le_zero.mp h
    exact fun x hx => hx
  | succ j ih =>
    rcases Nat.lt_or_ge i (j + 1) with hlt | hge
    · have hsub := ih (Nat.lt_succ_iff.mp hlt)
      rcases Nat.lt_or_ge j ks.length with hj | hj
      · rw [stateBefore_succ dfL dfR ks j hj]
        exact fun x hx => mergeRound_rightMatched_mono dfL dfR _ _ (hsub hx)
      · rw [stateBefore_stable dfL dfR ks j hj]
        exact hsub
    · cases Nat.le_antisymm h hge
      exact fun x hx => hx

theorem roundPairsOf_mem_mergeRound (dfL dfR : DataFrame) (st : MergerState)
    (keys : String × String) (p : Nat × Nat)
    (hp : p ∈ roundPairsOf dfL dfR st keys) :
    p.1 ∈ (mergeRound dfL dfR st keys).leftMatched
      ∧ p.2 ∈ (mergeRound dfL dfR st keys).rightMatched := by
  simp only [roundPairsOf] at hp
  simp only [mergeRound]
  split
  · rename_i hguard
    rw [if_pos hguard] at hp
    cases hp
  · rename_i hguard
    rw [if_neg hguard] at hp
    simp only [List.mem_map] at hp
    obtain ⟨q, hq, rfl⟩ := hp
    split
    · rename_i hmr
      rw [hmr] at hq
      cases hq
    · constructor
      · apply List.mem_append_right
        exact List.mem_map_of_mem _ ((mem_uniqueFirst _ _).mpr (List.mem_map_of_mem Prod.fst hq))
      · apply List.mem_append_right
        exact List.mem_map_of_mem _ ((mem_uniqueFirst _ _).mpr (List.mem_map_of_mem Prod.snd hq))

theorem roundCandidatesOf_unmatched (dfL dfR : DataFrame) (st : MergerState)
    (keys : String × String) (p : Nat × Nat)
    (hp : p ∈ roundCandidatesOf dfL dfR st keys) :
    p.1 ∉ st.leftMatched ∧ p.2 ∉ st.rightMatched := by
  simp only [roundCandidatesOf] at hp
  split at hp
  · cases hp
  · simp only [List.mem_map] at hp
    obtain ⟨q, hq, rfl⟩ := hp
    have hb := innerJoinIdx_mem _ _ q hq
    rw [keyVals_length, subFrame_rows_length] at hb
    rw [keyVals_length, subFrame_rows_length] at hb
    constructor
    · have hm := getD_mem_of_lt _ q.1 hb.1
      exact ((mem_unmatchedPos _ _ _).mp hm).2
    · have hm := getD_mem_of_lt _ q.2 hb.2
      exact ((mem_unmatchedPos _ _ _).mp hm).2

theorem roundPairsOf_subset_candidates (dfL dfR : DataFrame) (st : MergerState)
    (keys : String × String) (p : Nat × Nat)
    (hp : p ∈ roundPairsOf dfL dfR st keys) :
    p ∈ roundCandidatesOf dfL dfR st keys := by
  simp only [roundPairsOf] at hp
  simp only [roundCandidatesOf]
  split at hp
  · cases hp
  · rename_i hguard
    rw [if_neg hguard]
    simp only [List.mem_map] at hp ⊢
    obtain ⟨q, hq, rfl⟩ := hp
    exact ⟨q, mergeResultPairs_subset _ _ _ _ q hq, rfl⟩

/-- C4: in every run of the progressive matcher, a record matched under key
pair `i` is never joined again under a later key pair `j > i`: no pair of
round `j`, whether raw equi-join candidate or kept matched pair, mentions
the left record or the right record of any matched pair of round `i`.  The
loop removes matched positions from both remaining pools before the next
key pair runs. -/
theorem matched_record_never_rejoined (dfL dfR : DataFrame) (ks : List (String × String))
    (i j : Nat) (hij : i < j) (hj : j < ks.length) (li ri : Nat)
    (hm : (li, ri) ∈ roundMatchedPairs dfL dfR ks i) :
    (∀ p ∈ roundCandidatePairs dfL dfR ks j, p.1 ≠ li ∧ p.2 ≠ ri) ∧
      (∀ p ∈ roundMatchedPairs dfL dfR ks j, p.1 ≠ li ∧ p.2 ≠ ri) := by
  have hi : i < ks.length := Nat.lt_trans hij hj
  unfold roundMatchedPairs at hm
  have hnext := roundPairsOf_mem_mergeRound dfL dfR _ _ _ hm
  rw [← stateBefore_succ dfL dfR ks i hi] at hnext
  have hL : li ∈ (stateBefore dfL dfR ks j).leftMatched :=
    stateBefore_leftMatched_mono dfL dfR ks (i + 1) j hij hnext.1
  have hR : ri ∈ (stateBefore dfL dfR ks j).rightMatched :=
    stateBefore_rightMatched_mono dfL dfR ks (i + 1) j hij hnext.2
  have hc : ∀ p ∈ roundCandidatePairs dfL dfR ks j, p.1 ≠ li ∧ p.2 ≠ ri := by
    intro p hp
    unfold roundCandidatePairs at hp
    have hu := roundCandidatesOf_unmatched dfL dfR _ _ p hp
    exact ⟨fun e => hu.1 (e ▸ hL), fun e => hu.2 (e ▸ hR)⟩
  refine ⟨hc, fun p hp => hc p ?_⟩
  unfold roundMatchedPairs at hp
  unfold roundCandidatePairs
  exact roundPairsOf_subset_candidates dfL dfR _ _ p hp

/-- Witness for C4, on the priority-list scenario of the spec: the right
record 0 is matched under key pair (A, A) in round 0; round 1 on key pair
(B, B) still finds a candidate, and that candidate avoids both records of
the round-0 match. -/
theorem matched_record_never_rejoined_witness :
    (0, 0) ∈ roundMatchedPairs exPrioL exPrioR exPrioKeys 0 ∧
      (∀ p ∈ roundCandidatePairs exPrioL exPrioR exPrioKeys 1, p.1 ≠ 0 ∧ p.2 ≠ 0) ∧
      (∀ p ∈ roundMatchedPairs exPrioL exPrioR exPrioKeys 1, p.1 ≠ 0 ∧ p.2 ≠ 0) := by
  have h := matched_record_never_rejoined exPrioL exPrioR exPrioKeys 0 1
    (by decide) (by decide) 0 0 (by decide)
  exact ⟨by decide, h.1, h.2⟩

theorem mergeRound_left_empty (dfL dfR : DataFrame) (st : MergerState)
    (keys : String × String) (h : dfL.rows = []) :
    mergeRound dfL dfR st keys = st := by
  simp only [mergeRound, h]
  rw [if_pos]
  left
  simp [unmatchedPos]

theorem foldl_mergeRound_left_empty (dfL dfR : DataFrame) (ks : List (String × String))
    (st : MergerState) (h : dfL.rows = []) :
    ks.foldl (mergeRound dfL dfR) st = st := by
  induction ks generalizing st with
  | nil => rfl
  | cons k ks ih => rw [List.foldl_cons, mergeRound_left_empty dfL dfR st k h, ih]

theorem runRounds_left_empty (dfL dfR : DataFrame) (ks : List (String × String))
    (h : dfL.rows = []) : runRounds dfL dfR ks = ⟨[], [], []⟩ :=
  foldl_mergeRound_left_empty dfL dfR ks _ h

/-- C5: matching an empty LEFT against a non-empty RIGHT with
`return_type='left'` returns, without an error, an empty frame whose column
set is exactly the namespaced LEFT columns, then the namespaced RIGHT
columns, then `matching_flag`. -/
theorem empty_left_schema (dfL dfR : DataFrame) (regulator : String)
    (assetClass : Option String) (lp rp : String)
    (hL : dfL.rows = []) (hR : dfR.rows ≠ []) :
    mergeData (mkDataMerger dfL dfR regulator assetClass lp rp) "left"
      = .ok ⟨withPfx lp dfL.cols ++ withPfx rp dfR.cols ++ ["matching_flag"], []⟩ := by
  have hL2 : (mkDataMerger dfL dfR regulator assetClass lp rp).dfLeft.rows = [] := hL
  have hrr : runRounds (mkDataMerger dfL dfR regulator assetClass lp rp).dfLeft
      (mkDataMerger dfL dfR regulator assetClass lp rp).dfRight
      (mkDataMerger dfL dfR regulator assetClass lp rp).onKeysList = ⟨[], [], []⟩ :=
    runRounds_left_empty _ _ _ hL2
  have hvalid : ("left" = "left" ∨ "left" = "right" ∨ "left" = "inner"
      ∨ "left" = "full") := Or.inl rfl
  have hearly : leftEarlyReturn (mkDataMerger dfL dfR regulator assetClass lp rp) "left"
      ⟨[], [], []⟩ := by
    refine ⟨Or.inl rfl, ?_, rfl⟩
    simp [unmatchedPos, hL2]
  have := hvalid
  simp only [mergeData, hrr, if_pos hearly]
  simp [mkDataMerger]

/-- Witness for C5 at a concrete pair of frames. -/
theorem empty_left_schema_witness :
    mergeData (mkDataMerger exEmptyL exEmptyR "JFSA" none "l_" "r_") "left"
      = .ok ⟨["l_u", "r_u", "matching_flag"], []⟩ :=
  empty_left_schema exEmptyL exEmptyR "JFSA" none "l_" "r_" rfl (by decide)

/-- C1 (violated by the code): at the fan-out input (two LEFT records with
key K1, one RIGHT record with key K1, JFSA priority list), `merge_data`
emits two rows flagged matched and both contain the single RIGHT record,
so a right record participates in two matches.  The guard of
`_process_matches` only drops duplicated (index_x, index_y) PAIRS, which
are always distinct in an equi-join, so fan-out duplicates survive. -/
theorem fanout_right_record_matched_twice :
    mergeData exFanDM "full" =
      .ok ⟨["l_matching_key_uti", "r_matching_key_huti", "r_matching_key_uti",
            "r_matching_key_usi", "r_matching_key_usi_value", "r_matching_key_uti_value",
            "matching_flag"],
           [[some "K1", some "K1", some "U1", some "S1", some "SV1", some "UV1",
             some "matched"],
            [some "K1", some "K1", some "U1", some "S1", some "SV1", some "UV1",
             some "matched"]]⟩
      ∧ exFanR.rows.length = 1 :=
  ⟨rfl, rfl⟩

/-- C2 (violated by the code): in the single fan-out round both candidate
pairings (0, 0) and (1, 0) are kept as matched pairs; the first-encountered
pairing per right id is NOT the only one kept, and the duplicate candidate
is emitted as a matched row instead of being dropped. -/
theorem fanout_round_keeps_both_candidates :
    roundMatchedPairs exFanDM.dfLeft exFanDM.dfRight exFanDM.onKeysList 0 = [(0, 0), (1, 0)]
      ∧ (roundMatchedPairs exFanDM.dfLeft exFanDM.dfRight exFanDM.onKeysList 0).map Prod.snd
        = [0, 0] :=
  ⟨rfl, rfl⟩

/-- C3 (violated by the code): at the fan-out input the full result has two
matched rows and no right_only row, while RIGHT has a single record, so
`|right_only| + |matched| = 2 ≠ 1 = |RIGHT|`. -/
theorem fanout_breaks_completeness :
    (mergeData exFanDM "full").map
        (fun f => (countFlag f "matched", countFlag f "left_only", countFlag f "right_only"))
      = .ok (2, 0, 0)
      ∧ exFanL.rows.length = 2 ∧ exFanR.rows.length = 1 :=
  ⟨rfl, rfl, rfl⟩

/-- C9 (violated by the code): the FX segregation filter fails on every
supported regime; here a one-row JFSA CURR forward raises instead of
tagging the row and returning it.  Line 179 appends a row instead of
creating the subclass column and line 180 indexes the frame with an
unhashable tuple key. -/
theorem fx_segregation_always_raises :
    segregateFxTrades "JFSA" "FXC" exFxDf = .error "TypeError: unhashable type: Series" :=
  rfl

/-- Counterexample to C10 as stated: for the unknown regulator FCA, an
empty LEFT and a one-record RIGHT, the full run returns an empty frame
(the early-return branch of lines 165..173 also fires for
`return_type='full'`), so the RIGHT record is not classified right_only. -/
theorem unknown_regulator_empty_left_drops_right :
    mergeData (mkDataMerger exNoRegL exNoRegR "FCA" none "l_" "r_") "full"
      = .ok ⟨["l_matching_key_uti", "r_matching_key_uti", "matching_flag"], []⟩
      ∧ exNoRegR.rows.length = 1
      ∧ matchingKeysTable.lookup "FCA" = none :=
  ⟨rfl, rfl, rfl⟩

/-- Counterexample to C7 as stated: `clean_columns` draws its placeholder
suffixes with `np.random.randint(0, len(data), size=blanks)`, which samples
with replacement; under the valid draw (0, 0) for two blank rows, both rows
receive the identical placeholder, so placeholders are not guaranteed
distinct across the batch. -/
theorem tsr_clean_placeholder_collision :
    (tsrCleanColumn "uti" [none, some " "] [0, 0]).getD 0 ""
        = (tsrCleanColumn "uti" [none, some " "] [0, 0]).getD 1 ""
      ∧ (tsrCleanColumn "uti" [none, some " "] [0, 0]).getD 0 ""
        = tsrPlaceholder "uti" 0
      ∧ ([0, 0].all (fun r => r < [none, some " "].length)) = true :=
  ⟨rfl, rfl, rfl⟩

theorem pyStore_write_preserves (s : PyStore) (i j : Nat) (df : DataFrame)
    (h : i ≠ j) : (s.write i df).frames[j]? = s.frames[j]? :=
  List.getElem?_set_ne h

theorem pyStore_alloc_preserves (s : PyStore) (df : DataFrame) (j : Nat)
    (h : j < s.frames.length) : (s.alloc df).1.frames[j]? = s.frames[j]? :=
  List.getElem?_append_left h

/-- C8: a whole `DataMerger` session (construction plus `merge_data` with
any return type) never writes to any caller-owned frame: every reference
that existed in the store before the session still dereferences to the same
frame value (same column names, same rows) afterwards.  In particular the
caller frames at `iL` and `iR` are unchanged. -/
theorem merger_session_preserves_caller_frames (s0 : PyStore) (iL iR : Nat)
    (regulator : String) (assetClass : Option String) (lp rp returnType : String)
    (j : Nat) (hj : j < s0.frames.length) :
    (dataMergerSession s0 iL iR regulator assetClass lp rp returnType).1.frames[j]?
      = s0.frames[j]? := by
  have h1 : s0.frames.length ≠ j := Nat.ne_of_gt hj
  have h2 : s0.frames.length + 1 ≠ j := Nat.ne_of_gt (Nat.lt_succ_of_lt hj)
  have hlen1 : ((s0.alloc (s0.read iL)).1.alloc ((s0.alloc (s0.read iL)).1.read iR)).1.frames.length
      = s0.frames.length + 2 := by
    simp [PyStore.alloc]
  simp only [dataMergerSession]
  split
  · simp only [PyStore.write, PyStore.alloc, List.length_append, List.length_cons,
      List.length_nil, Nat.zero_add]
    rw [List.getElem?_set_ne h2, List.getElem?_set_ne h1]
    rw [List.getElem?_append_left (by simp; omega), List.getElem?_append_left hj]
  · split
    · simp only [PyStore.write, PyStore.alloc, List.length_append, List.length_cons,
        List.length_nil, Nat.zero_add]
      rw [List.getElem?_set_ne h2, List.getElem?_set_ne h1]
      rw [List.getElem?_append_left (by simp; omega), List.getElem?_append_left hj]
    · simp only [PyStore.write, PyStore.alloc, List.length_append, List.length_cons,
        List.length_nil, Nat.zero_add]
      rw [List.getElem?_set_ne h2, List.getElem?_set_ne h1,
        List.getElem?_set_ne h2, List.getElem?_set_ne h1]
      rw [List.getElem?_append_left (by simp; omega), List.getElem?_append_left hj]

/-- Witness for C8: a store holding the two fan-out frames; both are intact
after a full session. -/
theorem merger_session_preserves_caller_frames_witness :
    (dataMergerSession exStore 0 1 "JFSA" none "l_" "r_" "full").1.frames[0]?
        = exStore.frames[0]?
      ∧ (dataMergerSession exStore 0 1 "JFSA" none "l_" "r_" "full").1.frames[1]?
        = exStore.frames[1]? :=
  ⟨merger_session_preserves_caller_frames exStore 0 1 "JFSA" none "l_" "r_" "full" 0
      (by decide),
    merger_session_preserves_caller_frames exStore 0 1 "JFSA" none "l_" "r_" "full" 1
      (by decide)⟩

theorem toNat_ofNat_valid (n : Nat) (h : n < 55296) : (Char.ofNat n).toNat = n := by
  have hv : n.isValidChar := Or.inl h
  simp [Char.ofNat, hv, Char.ofNatAux, Char.toNat, UInt32.toNat]

theorem toUpper_eq_of_not_lower (c : Char) (h : ¬(97 ≤ c.toNat ∧ c.toNat ≤ 122)) :
    c.toUpper = c := by
  simp only [Char.toUpper]
  rw [if_neg]
  intro hc
  exact h ⟨hc.1, hc.2⟩

theorem toUpper_toNat_of_lower (c : Char) (h1 : 97 ≤ c.toNat) (h2 : c.toNat ≤ 122) :
    c.toUpper.toNat = c.toNat - 32 := by
  simp only [Char.toUpper]
  rw [if_pos ⟨h1, h2⟩]
  exact toNat_ofNat_valid _ (by omega)

theorem keepAZ09_toUpper (c : Char) : keepAZ09 c.toUpper = keepAlnumCI c := by
  by_cases h : 97 ≤ c.toNat ∧ c.toNat ≤ 122
  · rw [keepAZ09, keepAlnumCI, toUpper_toNat_of_lower c h.1 h.2, decide_eq_decide]
    omega
  · rw [toUpper_eq_of_not_lower c h, keepAZ09, keepAlnumCI, decide_eq_decide]
    omega

theorem keepAlnumCI_toUpper (c : Char) : keepAlnumCI c.toUpper = keepAlnumCI c := by
  by_cases h : 97 ≤ c.toNat ∧ c.toNat ≤ 122
  · rw [keepAlnumCI, keepAlnumCI, toUpper_toNat_of_lower c h.1 h.2, decide_eq_decide]
    omega
  · rw [toUpper_eq_of_not_lower c h]

theorem toUpper_idem (c : Char) : c.toUpper.toUpper = c.toUpper := by
  by_cases h : 97 ≤ c.toNat ∧ c.toNat ≤ 122
  · have := toUpper_toNat_of_lower c h.1 h.2
    apply toUpper_eq_of_not_lower
    omega
  · rw [toUpper_eq_of_not_lower c h, toUpper_eq_of_not_lower c h]

theorem keepAlnumCI_of_whitespace (c : Char) (h : c.isWhitespace = true) :
    keepAlnumCI c = false := by
  simp only [Char.isWhitespace, Bool.or_eq_true, decide_eq_true_eq] at h
  rcases h with ((h | h) | h) | h <;> subst h <;> decide

theorem filter_dropWhile_of_excl {p q : α → Bool} [DecidableEq α] (l : List α)
    (h : ∀ c, q c = true → p c = false) :
    (l.dropWhile q).filter p = l.filter p := by
  induction l with
  | nil => rfl
  | cons a l ih =>
    by_cases hq : q a = true
    · rw [List.dropWhile_cons_of_pos hq, ih, List.filter_cons_of_neg (by simp [h a hq])]
    · rw [List.dropWhile_cons_of_neg (by simp [hq])]

theorem filterCI_map_toUpper (l : List Char) :
    (l.map Char.toUpper).filter keepAlnumCI = (l.filter keepAlnumCI).map Char.toUpper := by
  rw [List.filter_map]
  congr 1
  apply List.filter_congr
  intro x _
  exact keepAlnumCI_toUpper x

theorem filterAZ_map_toUpper (l : List Char) :
    (l.map Char.toUpper).filter keepAZ09 = (l.filter keepAlnumCI).map Char.toUpper := by
  rw [List.filter_map]
  congr 1
  apply List.filter_congr
  intro x _
  exact keepAZ09_toUpper x

theorem trimFilterCI (l : List Char) :
    ((((l.dropWhile Char.isWhitespace).reverse).dropWhile Char.isWhitespace).reverse).filter
        keepAlnumCI
      = l.filter keepAlnumCI := by
  rw [List.filter_reverse, filter_dropWhile_of_excl _ keepAlnumCI_of_whitespace,
    List.filter_reverse, List.reverse_reverse,
    filter_dropWhile_of_excl _ keepAlnumCI_of_whitespace]

theorem d1_component_data (x : String) :
    ((pyUpper (pyStripWs x)).data.filter keepAZ09).map Char.toUpper
      = (specNormalize x).data := by
  show (((((x.data.dropWhile Char.isWhitespace).reverse).dropWhile
      Char.isWhitespace).reverse.map Char.toUpper).filter keepAZ09).map Char.toUpper
      = (x.data.map Char.toUpper).filter keepAlnumCI
  rw [filterAZ_map_toUpper, List.map_map]
  simp only [Function.comp_def]
  rw [List.map_congr_left (fun a _ => toUpper_idem a)]
  rw [trimFilterCI, filterCI_map_toUpper]

theorem jfsaKey_eq_specNormalize (cpty uti : String) :
    jfsaMatchingKeyUti cpty uti = specNormalize cpty ++ specNormalize uti := by
  apply String.ext
  show ((cpty.data ++ uti.data).filter keepAlnumCI).map Char.toUpper
    = (cpty.data.map Char.toUpper).filter keepAlnumCI
      ++ (uti.data.map Char.toUpper).filter keepAlnumCI
  rw [List.filter_append, List.map_append, filterCI_map_toUpper, filterCI_map_toUpper]

theorem derivOneKey_eq_specNormalize (lei utiP utiV : Cell) :
    derivOneMatchingKeyUti lei utiP utiV
      = specNormalize (lei.getD "") ++ specNormalize (utiP.getD "")
        ++ specNormalize (utiV.getD "") := by
  apply String.ext
  show ((((d1Clean lei).data ++ (d1Clean utiP).data ++ (d1Clean utiV).data).filter
      keepAZ09).map Char.toUpper)
    = ((specNormalize (lei.getD "")).data ++ (specNormalize (utiP.getD "")).data
        ++ (specNormalize (utiV.getD "")).data)
  rw [List.filter_append, List.filter_append, List.map_append, List.map_append]
  have h1 := d1_component_data (lei.getD "")
  have h2 := d1_component_data (utiP.getD "")
  have h3 := d1_component_data (utiV.getD "")
  simp only [d1Clean]
  rw [h1, h2, h3]

/-- C6: the derived matching key of a record equals the concatenation of
its normalized source components, where a component is normalized by
uppercasing and then removing every character outside `[A-Za-z0-9]` — for
the JFSA TSR generator (strip-then-upper on the concatenation) and for the
DerivOne generator (clean-uppercase per column, concatenate, strip
`[^A-Z0-9]`, uppercase).  In particular the LEFT value ABC123 and the
RIGHT value abc-123 produce the same key string. -/
theorem key_is_concat_of_normalized_components :
    (∀ cpty uti : String,
        jfsaMatchingKeyUti cpty uti = specNormalize cpty ++ specNormalize uti)
      ∧ (∀ lei utiP utiV : Cell,
          derivOneMatchingKeyUti lei utiP utiV
            = specNormalize (lei.getD "") ++ specNormalize (utiP.getD "")
              ++ specNormalize (utiV.getD ""))
      ∧ jfsaMatchingKeyUti "" "ABC123" = derivOneMatchingKeyUti none none (some "abc-123")
      ∧ jfsaMatchingKeyUti "" "ABC123" = "ABC123" :=
  ⟨jfsaKey_eq_specNormalize, derivOneKey_eq_specNormalize, rfl, rfl⟩

theorem digitChar_inj_lt10 (a b : Nat) (ha : a < 10) (hb : b < 10)
    (h : Nat.digitChar a = Nat.digitChar b) : a = b := by
  interval_cases a <;> interval_cases b <;> revert h <;> decide

theorem map_digitChar_inj (l1 l2 : List Nat) (h1 : ∀ d ∈ l1, d < 10)
    (h2 : ∀ d ∈ l2, d < 10) (h : l1.map Nat.digitChar = l2.map Nat.digitChar) :
    l1 = l2 := by
  induction l1 generalizing l2 with
  | nil =>
    cases l2 with
    | nil => rfl
    | cons b m => simp at h
  | cons a l ih =>
    cases l2 with
    | nil => simp at h
    | cons b m =>
      simp only [List.map_cons, List.cons.injEq] at h
      have hab := digitChar_inj_lt10 a b (h1 a (by simp)) (h2 b (by simp)) h.1
      rw [hab, ih m (fun d hd => h1 d (by simp [hd])) (fun d hd => h2 d (by simp [hd])) h.2]

theorem decRepr_inj_pos (a b : Nat) (ha : 0 < a) (hb : 0 < b)
    (h : decRepr a = decRepr b) : a = b := by
  unfold decRepr at h
  rw [if_neg (Nat.pos_iff_ne_zero.mp ha), if_neg (Nat.pos_iff_ne_zero.mp hb)] at h
  have hd : (Nat.digits 10 a).reverse.map Nat.digitChar
      = (Nat.digits 10 b).reverse.map Nat.digitChar := congrArg String.data h
  have hb1 : ∀ d ∈ (Nat.digits 10 a).reverse, d < 10 := by
    intro d hd2
    exact Nat.digits_lt_base (by omega) (List.mem_reverse.mp hd2)
  have hb2 : ∀ d ∈ (Nat.digits 10 b).reverse, d < 10 := by
    intro d hd2
    exact Nat.digits_lt_base (by omega) (List.mem_reverse.mp hd2)
  have hrev := map_digitChar_inj _ _ hb1 hb2 hd
  have hdig : Nat.digits 10 a = Nat.digits 10 b := by
    have := congrArg List.reverse hrev
    simpa using this
  exact Nat.digits_inj_iff.mp hdig

theorem missingPlaceholder_inj_pos (a b : Nat) (ha : 0 < a) (hb : 0 < b)
    (h : missingPlaceholder a = missingPlaceholder b) : a = b := by
  apply decRepr_inj_pos a b ha hb
  apply String.ext
  have hd := congrArg String.data h
  simp only [missingPlaceholder, String.data_append] at hd
  exact List.append_cancel_left hd

theorem fillChunkGo_length (start : Nat) (vs : List String) (k : Nat) :
    (fillChunkGo start vs k).length = vs.length := by
  induction vs generalizing k with
  | nil => rfl
  | cons v vs ih =>
    simp only [fillChunkGo]
    split <;> simp [ih]

theorem fillChunkGo_getD (start : Nat) (vs : List String) (k i : Nat) (hi : i < vs.length) :
    (fillChunkGo start vs k).getD i "" =
      if vs.getD i "" = "" then
        missingPlaceholder (start + 1 + k + ((vs.take i).countP (fun v => decide (v = ""))))
      else vs.getD i "" := by
  induction vs generalizing k i with
  | nil => simp at hi
  | cons v vs ih =>
    cases i with
    | zero =>
      simp only [fillChunkGo, List.take_zero, List.countP_nil, Nat.add_zero]
      by_cases hv : v = ""
      · rw [if_pos hv]
        simp [hv]
      · rw [if_neg hv]
        simp [hv]
    | succ i =>
      have hi2 : i < vs.length := by simpa using hi
      simp only [fillChunkGo, List.take_succ_cons, List.countP_cons]
      by_cases hv : v = ""
      · rw [if_pos hv]
        simp only [List.getD_cons_succ]
        rw [ih (k + 1) i hi2]
        by_cases hb : vs.getD i "" = ""
        · rw [if_pos hb, if_pos hb]
          congr 1
          rw [hv]
          simp
          omega
        · rw [if_neg hb, if_neg hb]
      · rw [if_neg hv]
        simp only [List.getD_cons_succ]
        rw [ih k i hi2]
        by_cases hb : vs.getD i "" = ""
        · rw [if_pos hb, if_pos hb]
          congr 1
          simp [hv]
        · rw [if_neg hb, if_neg hb]

theorem countP_take_lt_of_blank (vs : List String) (i j : Nat) (hij : i < j)
    (hi : i < vs.length) (hbi : vs.getD i "" = "") :
    (vs.take i).countP (fun v => decide (v = ""))
      < (vs.take j).countP (fun v => decide (v = "")) := by
  have hsplit : vs.take j = vs.take i ++ (vs.drop i).take (j - i) := by
    rw [List.take_drop]
    have hmin : (vs.take j).take i = vs.take i := by
      rw [List.take_take, Nat.min_eq_left (Nat.le_of_lt hij)]
    have hij2 : i + (j - i) = j := by omega
    rw [hij2]
    conv_lhs => rw [← List.take_append_drop i (vs.take j)]
    rw [hmin]
  rw [hsplit, List.countP_append]
  have hdrop : vs.drop i = vs[i] :: vs.drop (i + 1) := List.drop_eq_getElem_cons hi
  have hji : j - i = (j - i - 1) + 1 := by omega
  have hget : vs[i] = "" := by
    rw [List.getD_eq_getElem vs "" hi] at hbi
    exact hbi
  have hpos : 0 < ((vs.drop i).take (j - i)).countP (fun v => decide (v = "")) := by
    rw [hdrop, hji, List.take_succ_cons, List.countP_cons, hget]
    simp
  exact Nat.lt_add_of_pos_right hpos

theorem fillChunk_blank_ne (start : Nat) (vs : List String) (i j : Nat)
    (hi : i < vs.length) (hj : j < vs.length) (hij : i < j)
    (hbi : vs.getD i "" = "") (hbj : vs.getD j "" = "") :
    (fillChunk start vs).getD i "" ≠ (fillChunk start vs).getD j "" := by
  unfold fillChunk
  rw [fillChunkGo_getD start vs 0 i hi, fillChunkGo_getD start vs 0 j hj,
    if_pos hbi, if_pos hbj]
  intro heq
  have hlt := countP_take_lt_of_blank vs i j hij hi hbi
  have := missingPlaceholder_inj_pos _ _ (by omega) (by omega) heq
  omega

theorem chunkFill_length (vals : List String) (start : Nat) :
    (chunkFill vals start).length = vals.length := by
  induction vals, start using chunkFill.induct with
  | case1 start => simp [chunkFill]
  | case2 vals start h ih =>
    rw [chunkFill, dif_neg h, List.length_append, fillChunk, fillChunkGo_length, ih]
    simp only [List.length_take, List.length_drop]
    omega

theorem getD_drop (l : List String) (n m : Nat) (d : String) :
    (l.drop n).getD m d = l.getD (n + m) d := by
  induction l generalizing n with
  | nil => simp
  | cons a l ih =>
    cases n with
    | zero => simp
    | succ n =>
      rw [List.drop_succ_cons, ih n]
      have : n + 1 + m = (n + m) + 1 := by omega
      rw [this, List.getD_cons_succ]

theorem getD_take_of_lt (l : List String) (n m : Nat) (d : String) (h : m < n) :
    (l.take n).getD m d = l.getD m d := by
  rw [List.getD_eq_getElem?_getD, List.getD_eq_getElem?_getD, List.getElem?_take_of_lt h]

theorem countP_take_le (l : List String) (i : Nat) :
    (l.take i).countP (fun v => decide (v = "")) ≤ i := by
  calc (l.take i).countP (fun v => decide (v = "")) ≤ (l.take i).length :=
        List.countP_le_length _
  _ ≤ i := List.length_take_le i l

theorem chunkFill_getD_blank (vals : List String) (start : Nat) :
    ∀ i, i < vals.length → vals.getD i "" = "" →
      ∃ s, (chunkFill vals start).getD i "" = missingPlaceholder s
        ∧ start < s ∧ s ≤ start + vals.length := by
  induction vals, start using chunkFill.induct with
  | case1 start =>
    intro i hi _
    simp at hi
  | case2 vals start h ih =>
    intro i hi hb
    rw [chunkFill, dif_neg h]
    have hlen1 : (fillChunk start (vals.take 100000)).length = (vals.take 100000).length := by
      rw [fillChunk, fillChunkGo_length]
    by_cases hlt : i < 100000
    · have hitake : i < (vals.take 100000).length := by
        simp only [List.length_take]
        omega
      rw [List.getD_append _ _ _ _ (by omega)]
      rw [fillChunk, fillChunkGo_getD start _ 0 i hitake]
      have hbtake : (vals.take 100000).getD i "" = "" := by
        rw [getD_take_of_lt _ _ _ _ hlt]
        exact hb
      rw [if_pos hbtake]
      refine ⟨_, rfl, by omega, ?_⟩
      have hcnt := countP_take_le (vals.take 100000) i
      omega
    · have hlen100 : (vals.take 100000).length = 100000 := by
        simp only [List.length_take]
        omega
      rw [List.getD_append_right _ _ _ _ (by omega)]
      rw [hlen1, hlen100]
      have hdi : i - 100000 < (vals.drop 100000).length := by
        simp only [List.length_drop]
        omega
      have hbd : (vals.drop 100000).getD (i - 100000) "" = "" := by
        rw [getD_drop]
        have : 100000 + (i - 100000) = i := by omega
        rw [this]
        exact hb
      obtain ⟨s, hs, h1, h2⟩ := ih (i - 100000) hdi hbd
      refine ⟨s, hs, by omega, ?_⟩
      simp only [List.length_drop] at h2
      omega

theorem chunkFill_blank_ne (vals : List String) (start : Nat) :
    ∀ i j, i < j → j < vals.length → vals.getD i "" = "" → vals.getD j "" = "" →
      (chunkFill vals start).getD i "" ≠ (chunkFill vals start).getD j "" := by
  induction vals, start using chunkFill.induct with
  | case1 start =>
    intro i j hij hj _ _
    simp at hj
  | case2 vals start h ih =>
    intro i j hij hj hbi hbj
    rw [chunkFill, dif_neg h]
    have hlen1 : (fillChunk start (vals.take 100000)).length = (vals.take 100000).length := by
      rw [fillChunk, fillChunkGo_length]
    by_cases hj100 : j < 100000
    · have hi100 : i < 100000 := Nat.lt_trans hij hj100
      have hjtake : j < (vals.take 100000).length := by
        simp only [List.length_take]
        omega
      have hitake : i < (vals.take 100000).length := Nat.lt_trans hij hjtake
      rw [List.getD_append _ _ _ _ (by omega), List.getD_append _ _ _ _ (by omega)]
      exact fillChunk_blank_ne start (vals.take 100000) i j hitake hjtake hij
        (by rw [getD_take_of_lt _ _ _ _ hi100]; exact hbi)
        (by rw [getD_take_of_lt _ _ _ _ hj100]; exact hbj)
    · have hlen100 : (vals.take 100000).length = 100000 := by
        simp only [List.length_take]
        omega
      by_cases hi100 : i < 100000
      · have hitake : i < (vals.take 100000).length := by omega
        rw [List.getD_append _ _ _ _ (by omega),
          List.getD_append_right _ _ _ _ (by omega), hlen1, hlen100]
        rw [fillChunk, fillChunkGo_getD start _ 0 i hitake,
          if_pos (by rw [getD_take_of_lt _ _ _ _ hi100]; exact hbi)]
        have hdj : j - 100000 < (vals.drop 100000).length := by
          simp only [List.length_drop]
          omega
        have hbd : (vals.drop 100000).getD (j - 100000) "" = "" := by
          rw [getD_drop]
          have : 100000 + (j - 100000) = j := by omega
          rw [this]
          exact hbj
        obtain ⟨s, hs, hs1, _⟩ := chunkFill_getD_blank (vals.drop 100000) (start + 100000)
          (j - 100000) hdj hbd
        rw [hs]
        intro heq
        have hcnt := countP_take_le (vals.take 100000) i
        have := missingPlaceholder_inj_pos _ _ (by omega) (by omega) heq
        omega
      · rw [List.getD_append_right _ _ _ _ (by omega),
          List.getD_append_right _ _ _ _ (by omega), hlen1, hlen100]
        have hdj : j - 100000 < (vals.drop 100000).length := by
          simp only [List.length_drop]
          omega
        apply ih (i - 100000) (j - 100000) (by omega) hdj
        · rw [getD_drop]
          have : 100000 + (i - 100000) = i := by omega
          rw [this]
          exact hbi
        · rw [getD_drop]
          have : 100000 + (j - 100000) = j := by omega
          rw [this]
          exact hbj

theorem createDedupKeys_blank_ne (vals : List String) (i j : Nat) (hij : i < j)
    (hj : j < vals.length) (hbi : vals.getD i "" = "") (hbj : vals.getD j "" = "") :
    (createDedupKeys vals).getD i "" ≠ (createDedupKeys vals).getD j "" :=
  chunkFill_blank_ne vals 0 i j hij hj hbi hbj

/-- C7 (amended): the deduplication-key placeholders of
`DerivOneDeduplicator.create_deduplication_key` are sequential
(`start_idx + 1 ..` per chunk) and pairwise distinct across the whole
batch: two different blank rows never receive the same placeholder.  (The
claim as stated also covered `TSRKeyGenerator.clean_columns`, whose random
suffixes may collide; see the counterexample.) -/
theorem dedup_placeholders_pairwise_distinct (vals : List String) (i j : Nat)
    (hi : i < vals.length) (hj : j < vals.length) (hij : i ≠ j)
    (hbi : vals.getD i "" = "") (hbj : vals.getD j "" = "") :
    (createDedupKeys vals).getD i "" ≠ (createDedupKeys vals).getD j "" := by
  rcases Nat.lt_or_ge i j with h | h
  · exact createDedupKeys_blank_ne vals i j h hj hbi hbj
  · have hji : j < i := Nat.lt_of_le_of_ne h (Ne.symm hij)
    exact Ne.symm (createDedupKeys_blank_ne vals j i hji hi hbj hbi)

/-- Witness for the amended C7: two blank rows in a three-row batch get
distinct placeholders. -/
theorem dedup_placeholders_pairwise_distinct_witness :
    (createDedupKeys ["", "A", ""]).getD 0 "" ≠ (createDedupKeys ["", "A", ""]).getD 2 "" :=
  dedup_placeholders_pairwise_distinct ["", "A", ""] 0 2 (by decide) (by decide)
    (by decide) rfl rfl

theorem withPfx_length (p : String) (cs : List String) :
    (withPfx p cs).length = cs.length := by
  simp [withPfx]

theorem unmatchedPos_nil (n : Nat) : unmatchedPos n [] = List.range n := by
  simp [unmatchedPos]

theorem map_getD_range_rows (l : List (List Cell)) :
    (List.range l.length).map (fun i => l.getD i []) = l := by
  apply List.ext_getElem
  · simp
  · intro k h1 h2
    simp only [List.getElem_map, List.getElem_range]
    exact List.getD_eq_getElem l [] h2

theorem map_getD_range_comp (l : List (List Cell)) (f : List Cell → List Cell) :
    (List.range l.length).map (fun i => f (l.getD i [])) = l.map f := by
  conv_rhs => rw [← map_getD_range_rows l]
  rw [List.map_map]
  rfl

theorem findIdx?_beq_self_of_nodup (C : List String) (hC : C.Nodup) (k : Nat)
    (hk : k < C.length) : C.findIdx? (fun c2 => c2 == C[k]) = some k := by
  induction C generalizing k with
  | nil => simp at hk
  | cons a C ih =>
    rcases List.nodup_cons.mp hC with ⟨ha, hC2⟩
    cases k with
    | zero => simp
    | succ k =>
      have hk2 : k < C.length := by simpa using hk
      have hmem : C[k] ∈ C := List.getElem_mem hk2
      have hne : (a == (a :: C)[k + 1]) = false := by
        simp only [List.getElem_cons_succ, beq_eq_false_iff_ne]
        intro he
        exact ha (he ▸ hmem)
      rw [List.findIdx?_cons, if_neg (by simp_all), List.findIdx?_succ]
      simp only [List.getElem_cons_succ] at *
      rw [ih hC2 k hk2]
      rfl

theorem alignRow_self (C : List String) (r : List Cell) (hC : C.Nodup)
    (hr : r.length = C.length) : alignRow C C r = r := by
  apply List.ext_getElem
  · simp [alignRow, hr]
  · intro k h1 h2
    have hkC : k < C.length := by simpa [alignRow] using h1
    simp only [alignRow, List.getElem_map]
    rw [findIdx?_beq_self_of_nodup C hC k hkC]
    exact List.getD_eq_getElem r none h2

theorem findIdx?_beq_eq_none_of_not_mem (B : List String) (c : String) (h : c ∉ B) :
    B.findIdx? (fun c2 => c2 == c) = none := by
  rw [List.findIdx?_eq_none_iff]
  intro x hx
  simp only [beq_eq_false_iff_ne]
  intro he
  exact h (he ▸ hx)

theorem alignRow_append_left (A B : List String) (r : List Cell)
    (hd : ∀ c ∈ A, c ∉ B) :
    alignRow (A ++ B) B r = A.map (fun _ => (none : Cell)) ++ alignRow B B r := by
  simp only [alignRow, List.map_append]
  congr 1
  apply List.map_congr_left
  intro c hc
  rw [findIdx?_beq_eq_none_of_not_mem B c (hd c hc)]

theorem unionCols_single (f : DataFrame) : unionCols [f] = f.cols := by
  simp [unionCols]

theorem concatAlign_single (f : DataFrame) (hf : f.cols.Nodup) (hwf : f.WF) :
    concatAlign [f] = f := by
  simp only [concatAlign, unionCols_single, List.flatMap_cons, List.flatMap_nil,
    List.append_nil]
  have : f.rows.map (alignRow f.cols f.cols) = f.rows := by
    apply List.map_congr_left ?_ |>.trans (List.map_id f.rows)
    intro r hr
    exact alignRow_self f.cols r hf (hwf r hr)
  rw [this]

theorem unionCols_pair_subset (f g : DataFrame) (hsub : ∀ c ∈ g.cols, c ∈ f.cols) :
    unionCols [f, g] = f.cols := by
  have h1 : List.filter (fun c => decide (c ∉ ([] : List String))) f.cols = f.cols := by
    apply List.filter_eq_self.mpr
    intro c _
    simp
  have h2 : List.filter (fun c => decide (c ∉ f.cols)) g.cols = [] := by
    apply List.filter_eq_nil_iff.mpr
    intro c hc
    simp [hsub c hc]
  simp only [unionCols, List.foldl_cons, List.foldl_nil, List.nil_append, h1, h2,
    List.append_nil]

theorem concatAlign_pair (A B : List String) (rowsF : List (List Cell)) (g : DataFrame)
    (hgB : g.cols = B) (hnd : (A ++ B).Nodup)
    (hwfF : ∀ r ∈ rowsF, r.length = (A ++ B).length) (hwfG : g.WF) :
    concatAlign [⟨A ++ B, rowsF⟩, g]
      = ⟨A ++ B, rowsF ++ g.rows.map (fun r => A.map (fun _ => (none : Cell)) ++ r)⟩ := by
  have hBnd : B.Nodup := (List.nodup_append.mp hnd).2.1
  have hdisj : ∀ c ∈ A, c ∉ B := by
    intro c hc
    exact (List.nodup_append.mp hnd).2.2 hc
  have hcols : unionCols [⟨A ++ B, rowsF⟩, g] = A ++ B := by
    apply unionCols_pair_subset
    intro c hc
    rw [hgB] at hc
    exact List.mem_append_right A hc
  simp only [concatAlign, hcols, List.flatMap_cons, List.flatMap_nil, List.append_nil]
  congr 1
  congr 1
  · apply List.map_congr_left ?_ |>.trans (List.map_id rowsF)
    intro r hr
    exact alignRow_self (A ++ B) r hnd (hwfF r hr)
  · apply List.map_congr_left
    intro r hr
    rw [hgB, alignRow_append_left A B r hdisj,
      alignRow_self B r hBnd (by rw [hwfG r hr, hgB])]

/-- C10 (amended): for a regulator absent from the matching-keys table,
`get_matching_keys_for_regulator` returns the empty list and a full
`merge_data` run raises no error; provided LEFT is non-empty (when LEFT is
empty and RIGHT non-empty the early-return branch drops the right_only
rows; see the counterexample), the result lists every LEFT record once as
left_only and every RIGHT record once as right_only, with no matched row.
Frames are assumed well-formed with a duplicate-free result schema. -/
theorem unknown_regulator_all_unmatched (dfL dfR : DataFrame) (regulator : String)
    (assetClass : Option String) (lp rp : String)
    (hreg : matchingKeysTable.lookup regulator = none)
    (hL : dfL.rows ≠ []) (hwfL : dfL.WF) (hwfR : dfR.WF)
    (hnd : (withPfx lp dfL.cols ++ withPfx rp dfR.cols ++ ["matching_flag"]).Nodup) :
    mergeData (mkDataMerger dfL dfR regulator assetClass lp rp) "full"
      = .ok ⟨withPfx lp dfL.cols ++ withPfx rp dfR.cols ++ ["matching_flag"],
          dfL.rows.map (fun r =>
              r ++ dfR.cols.map (fun _ => (none : Cell)) ++ [some "left_only"])
            ++ dfR.rows.map (fun r =>
              dfL.cols.map (fun _ => (none : Cell)) ++ r ++ [some "right_only"])⟩ := by
  have hkeys : (mkDataMerger dfL dfR regulator assetClass lp rp).onKeysList = [] := by
    simp [mkDataMerger, getMatchingKeysForRegulator, hreg]
  have hrun : runRounds (mkDataMerger dfL dfR regulator assetClass lp rp).dfLeft
      (mkDataMerger dfL dfR regulator assetClass lp rp).dfRight
      (mkDataMerger dfL dfR regulator assetClass lp rp).onKeysList = ⟨[], [], []⟩ := by
    rw [hkeys]
    rfl
  have hnL : dfL.rows.length ≠ 0 := fun h => hL (List.eq_nil_of_length_eq_zero h)
  have hlpos_ne : unmatchedPos
      (mkDataMerger dfL dfR regulator assetClass lp rp).dfLeft.rows.length
      ([] : List Nat) ≠ [] := by
    rw [unmatchedPos_nil]
    intro hc
    have hlen := congrArg List.length hc
    simp only [List.length_range, List.length_nil] at hlen
    exact hnL hlen
  have hnotearly : ¬ leftEarlyReturn (mkDataMerger dfL dfR regulator assetClass lp rp)
      "full" ⟨[], [], []⟩ := fun hc => hlpos_ne hc.2.1
  have hlf : leftOnlyFrame (mkDataMerger dfL dfR regulator assetClass lp rp) ⟨[], [], []⟩
      = ⟨withPfx lp dfL.cols ++ withPfx rp dfR.cols ++ ["matching_flag"],
         dfL.rows.map (fun r =>
           r ++ dfR.cols.map (fun _ => (none : Cell)) ++ [some "left_only"])⟩ := by
    simp only [leftOnlyFrame, mkDataMerger, unmatchedPos_nil]
    congr 1
    exact map_getD_range_comp dfL.rows
      (fun r => r ++ dfR.cols.map (fun _ => (none : Cell)) ++ [some "left_only"])
  have hrf : rightOnlyFrame (mkDataMerger dfL dfR regulator assetClass lp rp) ⟨[], [], []⟩
      = ⟨withPfx rp dfR.cols ++ ["matching_flag"],
         dfR.rows.map (fun r => r ++ [some "right_only"])⟩ := by
    simp only [rightOnlyFrame, mkDataMerger, unmatchedPos_nil]
    congr 1
    exact map_getD_range_comp dfR.rows (fun r => r ++ [some "right_only"])
  have hwfLf : (⟨withPfx lp dfL.cols ++ withPfx rp dfR.cols ++ ["matching_flag"],
      dfL.rows.map (fun r =>
        r ++ dfR.cols.map (fun _ => (none : Cell)) ++ [some "left_only"])⟩ :
      DataFrame).WF := by
    intro r hr
    rw [List.mem_map] at hr
    obtain ⟨r0, hr0, rfl⟩ := hr
    simp [withPfx, hwfL r0 hr0]
  have hcondL : ("full" = "left" ∨ True) ∧ unmatchedPos
      (mkDataMerger dfL dfR regulator assetClass lp rp).dfLeft.rows.length
      ([] : List Nat) ≠ [] := ⟨Or.inr trivial, hlpos_ne⟩
  by_cases hRe : dfR.rows = []
  · simp only [mergeData, hrun, if_neg hnotearly]
    have hrpos : unmatchedPos
        (mkDataMerger dfL dfR regulator assetClass lp rp).dfRight.rows.length
        ([] : List Nat) = [] := by
      rw [unmatchedPos_nil]
      simp [mkDataMerger, hRe]
    have hcondR : ¬ (("full" = "right" ∨ True) ∧ unmatchedPos
        (mkDataMerger dfL dfR regulator assetClass lp rp).dfRight.rows.length
        ([] : List Nat) ≠ []) := fun hc => hc.2 hrpos
    rw [if_neg (by simp)]
    rw [if_neg hcondR, if_pos hcondL, List.nil_append]
    rw [if_neg (by simp)]
    rw [hlf]
    rw [concatAlign_single _ hnd hwfLf]
    rw [hRe]
    simp
  · have hrpos_ne : unmatchedPos
        (mkDataMerger dfL dfR regulator assetClass lp rp).dfRight.rows.length
        ([] : List Nat) ≠ [] := by
      rw [unmatchedPos_nil]
      intro hc
      have hlen := congrArg List.length hc
      simp only [List.length_range, List.length_nil] at hlen
      exact hRe (List.eq_nil_of_length_eq_zero hlen)
    have hcondR : ("full" = "right" ∨ True) ∧ unmatchedPos
        (mkDataMerger dfL dfR regulator assetClass lp rp).dfRight.rows.length
        ([] : List Nat) ≠ [] := ⟨Or.inr trivial, hrpos_ne⟩
    simp only [mergeData, hrun, if_neg hnotearly]
    rw [if_neg (by simp)]
    rw [if_pos hcondR, if_pos hcondL, List.nil_append]
    rw [if_neg (by simp)]
    rw [hlf, hrf]
    have hndA : (withPfx lp dfL.cols
        ++ (withPfx rp dfR.cols ++ ["matching_flag"])).Nodup := by
      rw [← List.append_assoc]
      exact hnd
    have hwfG : (⟨withPfx rp dfR.cols ++ ["matching_flag"],
        dfR.rows.map (fun r => r ++ [some "right_only"])⟩ : DataFrame).WF := by
      intro r hr
      rw [List.mem_map] at hr
      obtain ⟨r0, hr0, rfl⟩ := hr
      simp [withPfx, hwfR r0 hr0]
    have hwfF : ∀ r ∈ dfL.rows.map (fun r =>
          r ++ dfR.cols.map (fun _ => (none : Cell)) ++ [some "left_only"]),
        r.length = (withPfx lp dfL.cols
          ++ (withPfx rp dfR.cols ++ ["matching_flag"])).length := by
      intro r hr
      have := hwfLf r hr
      simp only [List.length_append] at this ⊢
      omega
    have hpair := concatAlign_pair (withPfx lp dfL.cols)
      (withPfx rp dfR.cols ++ ["matching_flag"])
      (dfL.rows.map (fun r =>
        r ++ dfR.cols.map (fun _ => (none : Cell)) ++ [some "left_only"]))
      ⟨withPfx rp dfR.cols ++ ["matching_flag"],
        dfR.rows.map (fun r => r ++ [some "right_only"])⟩
      rfl hndA hwfF hwfG
    rw [← List.append_assoc] at hpair
    rw [List.singleton_append, hpair]
    congr 1
    congr 1
    congr 1
    rw [List.map_map]
    apply List.map_congr_left
    intro r _
    simp [withPfx, List.map_map, Function.comp_def]

/-- Witness for the amended C10 at concrete frames: one left record, two
right records, unknown regulator FCA. -/
theorem unknown_regulator_all_unmatched_witness :
    mergeData (mkDataMerger exNoRegL2 exNoRegR2 "FCA" none "l_" "r_") "full"
      = .ok ⟨["l_a", "r_b", "matching_flag"],
          [[some "x", none, some "left_only"],
           [none, some "y", some "right_only"],
           [none, some "z", some "right_only"]]⟩ := by
  have h := unknown_regulator_all_unmatched exNoRegL2 exNoRegR2 "FCA" none "l_" "r_"
    rfl (by decide) (by decide) (by decide) (by decide)
  rw [h]
  rfl
